import Mathlib

/-!
Verification of the quicpro QUIC + HTTP/3 protocol stack.

Shallow embedding of the Python sources under `src/quicpro/`:
bytes are `Nat` values below 256, byte strings are `List Nat`,
fallible code returns `Except String`.  External cryptographic
primitives (`hashlib.sha256`, `cryptography`'s `AESGCM`) are modelled
as abstract functions carrying their documented functional contracts.
-/

set_option maxRecDepth 4096

namespace Quicpro

/-! ## Byte-string utilities (int.to_bytes / int.from_bytes, big-endian) -/

/-- Big-endian encoding of `n` into `len` bytes, as Python's
`n.to_bytes(len, byteorder="big")` (assuming `n < 256 ^ len`). -/
def toBytesBE (len : Nat) (n : Nat) : List Nat :=
  match len with
  | 0 => []
  | l + 1 => toBytesBE l (n / 256) ++ [n % 256]

/-- Big-endian decoding, as Python's `int.from_bytes(bs, byteorder="big")`. -/
def fromBytesBE (bs : List Nat) : Nat :=
  bs.foldl (fun a b => 256 * a + b) 0

theorem toBytesBE_length (len n : Nat) : (toBytesBE len n).length = len := by
  induction len generalizing n with
  | zero => rfl
  | succ l ih => simp [toBytesBE, ih]

theorem toBytesBE_lt (len n : Nat) : ∀ d ∈ toBytesBE len n, d < 256 := by
  induction len generalizing n with
  | zero => simp [toBytesBE]
  | succ l ih =>
    intro d hd
    simp only [toBytesBE, List.mem_append, List.mem_singleton] at hd
    rcases hd with h | h
    · exact ih _ _ h
    · subst h; exact Nat.mod_lt _ (by norm_num)

theorem fromBytesBE_aux (bs : List Nat) (a : Nat) :
    bs.foldl (fun a b => 256 * a + b) a = a * 256 ^ bs.length + fromBytesBE bs := by
  induction bs generalizing a with
  | nil => simp [fromBytesBE]
  | cons x xs ih =>
    simp only [List.foldl_cons, fromBytesBE, List.length_cons, Nat.mul_zero, Nat.zero_add]
    rw [ih (256 * a + x), ih x]
    ring

theorem fromBytesBE_cons (x : Nat) (xs : List Nat) :
    fromBytesBE (x :: xs) = x * 256 ^ xs.length + fromBytesBE xs := by
  simp only [fromBytesBE, List.foldl_cons, Nat.mul_zero, Nat.zero_add]
  rw [fromBytesBE_aux]
  rfl

theorem fromBytesBE_lt (bs : List Nat) (h : ∀ d ∈ bs, d < 256) :
    fromBytesBE bs < 256 ^ bs.length := by
  induction bs with
  | nil => simp [fromBytesBE]
  | cons x xs ih =>
    rw [fromBytesBE_cons]
    have hx : x < 256 := h x (by simp)
    have hxs : fromBytesBE xs < 256 ^ xs.length := ih (fun d hd => h d (by simp [hd]))
    have : x * 256 ^ xs.length + fromBytesBE xs < (x + 1) * 256 ^ xs.length := by
      calc x * 256 ^ xs.length + fromBytesBE xs
          < x * 256 ^ xs.length + 256 ^ xs.length := by omega
        _ = (x + 1) * 256 ^ xs.length := by ring
    calc x * 256 ^ xs.length + fromBytesBE xs
        < (x + 1) * 256 ^ xs.length := this
      _ ≤ 256 * 256 ^ xs.length := by
          have : x + 1 ≤ 256 := hx
          exact Nat.mul_le_mul_right _ this
      _ = 256 ^ (xs.length + 1) := by ring

theorem fromBytesBE_toBytesBE (len n : Nat) (h : n < 256 ^ len) :
    fromBytesBE (toBytesBE len n) = n := by
  induction len generalizing n with
  | zero => simp at h; simp [toBytesBE, fromBytesBE, h]
  | succ l ih =>
    simp only [toBytesBE, fromBytesBE, List.foldl_append, List.foldl_cons, List.foldl_nil]
    rw [show (toBytesBE l (n / 256)).foldl (fun a b => 256 * a + b) 0 =
        fromBytesBE (toBytesBE l (n / 256)) from rfl]
    rw [ih (n / 256) (by
      apply Nat.div_lt_of_lt_mul
      calc n < 256 ^ (l + 1) := h
        _ = 256 * 256 ^ l := by ring)]
    omega

/-- Injectivity of big-endian decoding on equal-length lists of genuine bytes. -/
theorem fromBytesBE_inj (xs ys : List Nat)
    (hlen : xs.length = ys.length)
    (hx : ∀ d ∈ xs, d < 256) (hy : ∀ d ∈ ys, d < 256)
    (hne : xs ≠ ys) : fromBytesBE xs ≠ fromBytesBE ys := by
  induction xs generalizing ys with
  | nil => cases ys with
    | nil => exact absurd rfl hne
    | cons y ys => simp at hlen
  | cons x xs ih =>
    cases ys with
    | nil => simp at hlen
    | cons y ys =>
      simp only [List.length_cons, Nat.succ_inj] at hlen
      rw [fromBytesBE_cons, fromBytesBE_cons, hlen]
      by_cases hxy : x = y
      · subst hxy
        have hxs : xs ≠ ys := by intro hh; exact hne (by rw [hh])
        have := ih ys hlen (fun d hd => hx d (by simp [hd]))
          (fun d hd => hy d (by simp [hd])) hxs
        omega
      · have h1 : fromBytesBE xs < 256 ^ ys.length := by
          rw [← hlen]; exact fromBytesBE_lt xs (fun d hd => hx d (by simp [hd]))
        have h2 : fromBytesBE ys < 256 ^ ys.length := fromBytesBE_lt ys (fun d hd => hy d (by simp [hd]))
        rcases Nat.lt_or_ge x y with hlt | hge
        · have : (x + 1) * 256 ^ ys.length ≤ y * 256 ^ ys.length :=
            Nat.mul_le_mul_right _ hlt
          intro heq; nlinarith
        · have hgt : y < x := lt_of_le_of_ne hge (fun hh => hxy hh.symm)
          have : (y + 1) * 256 ^ ys.length ≤ x * 256 ^ ys.length :=
            Nat.mul_le_mul_right _ hgt
          intro heq; nlinarith

/-! ## QUIC packet codec
(`src/quicpro/utils/quic/packet/encoder.py`, `decoder.py`)

The packet format is `HEADER_MARKER("QUIC") || length(4,BE) || sha256(payload)[0..8] || payload`.
`hashlib.sha256(...).digest()` is an external primitive; it is modelled as an
abstract function `hash : List Nat → List Nat` whose 32-byte output contract is
carried as a hypothesis where needed. -/

/-- The bytes of `HEADER_MARKER = b'QUIC'`. -/
def headerMarker : List Nat := [0x51, 0x55, 0x49, 0x43]

/-- `encode_quic_packet` from `packet/encoder.py`.  Raises (returns `.error`) on an
empty payload; `len(payload).to_bytes(4, 'big')` raises `OverflowError` when the
length does not fit into four bytes. -/
def encode_quic_packet (hash : List Nat → List Nat) (payload : List Nat) :
    Except String (List Nat) :=
  if payload = [] then .error "Payload cannot be empty."
  else if payload.length < 256 ^ 4 then
    .ok (headerMarker ++ toBytesBE 4 payload.length ++ (hash payload).take 8 ++ payload)
  else .error "OverflowError: int too big to convert"

/-- `decode_quic_packet` from `packet/decoder.py`. -/
def decode_quic_packet (hash : List Nat → List Nat) (packet : List Nat) :
    Except String (List Nat) :=
  if packet.take 4 ≠ headerMarker then
    .error "Packet does not start with the required header marker."
  else if packet.length < 16 then
    .error "Packet too short to contain a valid header."
  else
    let payloadLength := fromBytesBE ((packet.drop 4).take 4)
    let checksum := (packet.drop 8).take 8
    if packet.length < 16 + payloadLength then
      .error "Packet payload length mismatch."
    else
      let payload := (packet.drop 16).take payloadLength
      if (hash payload).take 8 ≠ checksum then
        .error "Checksum verification failed."
      else
        .ok payload

theorem take_app {α : Type} (xs ys : List α) (n : Nat) (h : xs.length = n) :
    (xs ++ ys).take n = xs := by
  subst h; exact List.take_left xs ys

theorem drop_app {α : Type} (xs ys : List α) (n : Nat) (h : xs.length = n) :
    (xs ++ ys).drop n = ys := by
  subst h; exact List.drop_left xs ys

/-- Behaviour of the decoder on an explicitly decomposed packet
`marker ++ len4 ++ chk8 ++ rest`: it slices the first `fromBytesBE len4`
bytes of `rest` as the payload and checks the truncated hash. -/
theorem decode_quic_packet_parts (hash : List Nat → List Nat)
    (len4 chk8 rest : List Nat) (h4 : len4.length = 4) (h8 : chk8.length = 8) :
    decode_quic_packet hash (headerMarker ++ len4 ++ chk8 ++ rest) =
      if 16 + rest.length < 16 + fromBytesBE len4 then
        .error "Packet payload length mismatch."
      else if (hash (rest.take (fromBytesBE len4))).take 8 ≠ chk8 then
        .error "Checksum verification failed."
      else .ok (rest.take (fromBytesBE len4)) := by
  have hm : headerMarker.length = 4 := rfl
  have e1 : headerMarker ++ len4 ++ chk8 ++ rest
      = headerMarker ++ (len4 ++ (chk8 ++ rest)) := by simp
  have e2 : headerMarker ++ len4 ++ chk8 ++ rest
      = (headerMarker ++ len4) ++ (chk8 ++ rest) := by simp
  have e3 : headerMarker ++ len4 ++ chk8 ++ rest
      = (headerMarker ++ len4 ++ chk8) ++ rest := by simp
  have htake : (headerMarker ++ len4 ++ chk8 ++ rest).take 4 = headerMarker := by
    rw [e1]; exact take_app _ _ _ hm
  have hlen : (headerMarker ++ len4 ++ chk8 ++ rest).length = 16 + rest.length := by
    simp [hm, h4, h8]; omega
  have hd4t : ((headerMarker ++ len4 ++ chk8 ++ rest).drop 4).take 4 = len4 := by
    rw [e1, drop_app _ _ _ hm, take_app _ _ _ h4]
  have hd8t : ((headerMarker ++ len4 ++ chk8 ++ rest).drop 8).take 8 = chk8 := by
    rw [e2, drop_app _ _ _ (by simp [hm, h4]), take_app _ _ _ h8]
  have hd16 : (headerMarker ++ len4 ++ chk8 ++ rest).drop 16 = rest := by
    rw [e3, drop_app _ _ _ (by simp [hm, h4, h8])]
  simp only [decode_quic_packet, htake, hlen, hd4t, hd8t, hd16]
  rw [if_neg (by simp), if_neg (by omega)]

/-! ## List update helpers for the mutation statements -/

/-- True exactly on `Except.ok` values; models a Python call returning normally. -/
def exceptOk {ε α : Type} : Except ε α → Bool
  | .ok _ => true
  | .error _ => false

theorem set_app_right {α : Type} (xs ys : List α) (n : Nat) (b : α)
    (h : xs.length ≤ n) : (xs ++ ys).set n b = xs ++ ys.set (n - xs.length) b := by
  induction xs generalizing n with
  | nil => simp
  | cons a tl ih =>
    cases n with
    | zero => simp at h
    | succ m =>
      simp only [List.cons_append, List.set_cons_succ, List.length_cons]
      rw [ih m (by simpa using h)]
      have he : m + 1 - (tl.length + 1) = m - tl.length := by omega
      rw [he]

theorem set_app_left {α : Type} (xs ys : List α) (n : Nat) (b : α)
    (h : n < xs.length) : (xs ++ ys).set n b = xs.set n b ++ ys := by
  induction xs generalizing n with
  | nil => simp at h
  | cons a tl ih =>
    cases n with
    | zero => simp
    | succ m =>
      simp only [List.cons_append, List.set_cons_succ]
      rw [ih m (by simpa using h)]

theorem get?_app_right {α : Type} (xs ys : List α) (n : Nat)
    (h : xs.length ≤ n) : (xs ++ ys).get? n = ys.get? (n - xs.length) := by
  induction xs generalizing n with
  | nil => simp
  | cons a tl ih =>
    cases n with
    | zero => simp at h
    | succ m =>
      simp only [List.cons_append, List.get?_cons_succ, List.length_cons]
      rw [ih m (by simpa using h)]
      have he : m + 1 - (tl.length + 1) = m - tl.length := by omega
      rw [he]

theorem mem_set_or {α : Type} (l : List α) (k : Nat) (b : α) :
    ∀ d ∈ l.set k b, d = b ∨ d ∈ l := by
  induction l generalizing k with
  | nil => simp
  | cons a tl ih =>
    cases k with
    | zero =>
      intro d hd
      rcases List.mem_cons.mp hd with h | h
      · exact Or.inl h
      · exact Or.inr (List.mem_cons_of_mem _ h)
    | succ m =>
      intro d hd
      rcases List.mem_cons.mp hd with h | h
      · exact Or.inr (h ▸ List.mem_cons_self _ _)
      · rcases ih m d h with h2 | h2
        · exact Or.inl h2
        · exact Or.inr (List.mem_cons_of_mem _ h2)

theorem set_ne_of_get?_ne {α : Type} (l : List α) (k : Nat) (b : α)
    (hk : k < l.length) (hb : l.get? k ≠ some b) : l.set k b ≠ l := by
  induction l generalizing k with
  | nil => simp at hk
  | cons a tl ih =>
    cases k with
    | zero =>
      simp only [List.get?_cons_zero, ne_eq, Option.some.injEq] at hb
      simp only [List.set_cons_zero, ne_eq, List.cons.injEq, not_and]
      intro hba
      exact absurd hba.symm hb
    | succ m =>
      simp only [List.get?_cons_succ] at hb
      simp only [List.set_cons_succ, ne_eq, List.cons.injEq, not_and]
      intro _ h2
      exact ih m (by simpa using hk) hb h2

theorem get?_app_left {α : Type} (xs ys : List α) (n : Nat)
    (h : n < xs.length) : (xs ++ ys).get? n = xs.get? n := by
  induction xs generalizing n with
  | nil => simp at h
  | cons a tl ih =>
    cases n with
    | zero => rfl
    | succ m => simpa using ih m (by simpa using h)

/-- Mutating a byte of the third field of `A ++ B ++ C ++ D` (the 8-byte
checksum of an encoded QUIC packet) touches only `C`. -/
theorem set_field3 {α : Type} (A B C D : List α) (i : Nat) (b : α)
    (hA : A.length = 4) (hB : B.length = 4) (hC : C.length = 8)
    (h8 : 8 ≤ i) (h16 : i < 16) :
    (A ++ B ++ C ++ D).set i b = A ++ B ++ C.set (i - 8) b ++ D := by
  have e : A ++ B ++ C ++ D = (A ++ B) ++ (C ++ D) := by simp
  rw [e, set_app_right _ _ i b (by rw [List.length_append, hA, hB]; omega)]
  rw [List.length_append, hA, hB]
  rw [set_app_left _ _ _ _ (by rw [hC]; omega)]
  simp

theorem get?_field3 {α : Type} (A B C D : List α) (i : Nat)
    (hA : A.length = 4) (hB : B.length = 4) (hC : C.length = 8)
    (h8 : 8 ≤ i) (h16 : i < 16) :
    (A ++ B ++ C ++ D).get? i = C.get? (i - 8) := by
  have e : A ++ B ++ C ++ D = (A ++ B) ++ (C ++ D) := by simp
  rw [e, get?_app_right _ _ i (by rw [List.length_append, hA, hB]; omega)]
  rw [List.length_append, hA, hB]
  rw [get?_app_left _ _ _ (by rw [hC]; omega)]

/-- Mutating a byte of the second field of `A ++ B ++ C ++ D` (the 4-byte
length field of an encoded QUIC packet) touches only `B`. -/
theorem set_field2 {α : Type} (A B C D : List α) (i : Nat) (b : α)
    (hA : A.length = 4) (hB : B.length = 4) (h4 : 4 ≤ i) (h8 : i < 8) :
    (A ++ B ++ C ++ D).set i b = A ++ B.set (i - 4) b ++ C ++ D := by
  have e : A ++ B ++ C ++ D = A ++ (B ++ (C ++ D)) := by simp
  rw [e, set_app_right _ _ i b (by rw [hA]; omega), hA]
  rw [set_app_left _ _ _ _ (by rw [hB]; omega)]
  simp

theorem get?_field2 {α : Type} (A B C D : List α) (i : Nat)
    (hA : A.length = 4) (hB : B.length = 4) (h4 : 4 ≤ i) (h8 : i < 8) :
    (A ++ B ++ C ++ D).get? i = B.get? (i - 4) := by
  have e : A ++ B ++ C ++ D = A ++ (B ++ (C ++ D)) := by simp
  rw [e, get?_app_right _ _ i (by rw [hA]; omega), hA]
  rw [get?_app_left _ _ _ (by rw [hB]; omega)]

/-- C1: for every non-empty payload `p` (fitting the 4-byte length field),
`decode_quic_packet (encode_quic_packet p) = p`; `encode_quic_packet` fails on
the empty payload; and decoding fails on any single-byte mutation of the length
field (offsets 4-7) or checksum field (offsets 8-15) of the encoded packet.
`hash` abstracts the external `hashlib.sha256(...).digest()` with its 32-byte
output contract; hypothesis `hcoll` states that the 8-byte truncated digest of
every strict prefix of `p` differs from that of `p` itself, the
collision-freeness that the checksum scheme relies on. -/
theorem quic_packet_roundtrip_and_mutations
    (hash : List Nat → List Nat) (hlen32 : ∀ m, (hash m).length = 32)
    (p : List Nat) (hne : p ≠ []) (hsize : p.length < 256 ^ 4)
    (hcoll : ∀ k, k < p.length → (hash (p.take k)).take 8 ≠ (hash p).take 8) :
    exceptOk (encode_quic_packet hash []) = false
    ∧ ∀ packet, encode_quic_packet hash p = Except.ok packet →
        decode_quic_packet hash packet = Except.ok p
        ∧ ∀ i b, 4 ≤ i → i < 16 → b < 256 → packet.get? i ≠ some b →
            exceptOk (decode_quic_packet hash (packet.set i b)) = false := by
  refine ⟨rfl, ?_⟩
  intro packet hpk
  have h4 : (toBytesBE 4 p.length).length = 4 := toBytesBE_length 4 _
  have h8 : ((hash p).take 8).length = 8 := by
    rw [List.length_take, hlen32 p]
    norm_num
  have hL : fromBytesBE (toBytesBE 4 p.length) = p.length :=
    fromBytesBE_toBytesBE 4 _ hsize
  simp only [encode_quic_packet, if_neg hne, if_pos hsize, Except.ok.injEq] at hpk
  subst hpk
  constructor
  · rw [decode_quic_packet_parts hash _ _ _ h4 h8, hL, if_neg (by omega),
      List.take_length, if_neg (by simp)]
  · intro i b hi4 hi16 hb256 hbne
    by_cases hcase : 8 ≤ i
    · -- mutation inside the checksum field
      have hget := get?_field3 headerMarker (toBytesBE 4 p.length) ((hash p).take 8) p
        i rfl h4 h8 hcase hi16
      rw [hget] at hbne
      have hne2 : ((hash p).take 8).set (i - 8) b ≠ (hash p).take 8 :=
        set_ne_of_get?_ne _ _ _ (by rw [h8]; omega) hbne
      rw [set_field3 headerMarker (toBytesBE 4 p.length) ((hash p).take 8) p i b
        rfl h4 h8 hcase hi16]
      rw [decode_quic_packet_parts hash _ _ _ h4 (by rw [List.length_set, h8]),
        hL, if_neg (by omega), List.take_length, if_pos (Ne.symm hne2)]
      rfl
    · -- mutation inside the length field
      have hi8 : i < 8 := by omega
      have hget := get?_field2 headerMarker (toBytesBE 4 p.length) ((hash p).take 8) p
        i rfl h4 hi4 hi8
      rw [hget] at hbne
      have hsetne : (toBytesBE 4 p.length).set (i - 4) b ≠ toBytesBE 4 p.length :=
        set_ne_of_get?_ne _ _ _ (by rw [h4]; omega) hbne
      have hdig : ∀ d ∈ (toBytesBE 4 p.length).set (i - 4) b, d < 256 := by
        intro d hd
        rcases mem_set_or _ _ _ d hd with h | h
        · exact h ▸ hb256
        · exact toBytesBE_lt 4 _ d h
      have hLne : fromBytesBE ((toBytesBE 4 p.length).set (i - 4) b)
          ≠ p.length := by
        have h1 := fromBytesBE_inj ((toBytesBE 4 p.length).set (i - 4) b)
          (toBytesBE 4 p.length) (by rw [List.length_set]) hdig
          (toBytesBE_lt 4 _) hsetne
        rw [hL] at h1
        exact h1
      rw [set_field2 headerMarker (toBytesBE 4 p.length) ((hash p).take 8) p i b
        rfl h4 hi4 hi8]
      rw [decode_quic_packet_parts hash _ _ _ (by rw [List.length_set, h4]) h8]
      rcases Nat.lt_or_ge p.length (fromBytesBE ((toBytesBE 4 p.length).set (i - 4) b))
        with hgt | hle
      · rw [if_pos (by omega)]
        rfl
      · have hlt : fromBytesBE ((toBytesBE 4 p.length).set (i - 4) b) < p.length := by
          omega
        rw [if_neg (by omega), if_pos (hcoll _ hlt)]
        rfl

/-- A stand-in for SHA-256 used to witness the abstract-hash hypotheses. -/
def c1Hash : List Nat → List Nat :=
  fun m => (m.length % 256) :: List.replicate 31 0

theorem quic_packet_roundtrip_and_mutations_witness :
    decode_quic_packet c1Hash
        [0x51, 0x55, 0x49, 0x43, 0, 0, 0, 1, 1, 0, 0, 0, 0, 0, 0, 0, 7]
      = Except.ok [7]
    ∧ exceptOk (decode_quic_packet c1Hash
        ([0x51, 0x55, 0x49, 0x43, 0, 0, 0, 1, 1, 0, 0, 0, 0, 0, 0, 0, 7].set 8 9))
      = false := by
  have h := quic_packet_roundtrip_and_mutations c1Hash
    (by intro m; simp [c1Hash]) [7] (by decide) (by decide)
    (by
      intro k hk
      have hk0 : k = 0 := by simp at hk; exact hk
      subst hk0
      decide)
  have hpk : encode_quic_packet c1Hash [7]
      = Except.ok [0x51, 0x55, 0x49, 0x43, 0, 0, 0, 1, 1, 0, 0, 0, 0, 0, 0, 0, 7] := by
    rfl
  exact ⟨(h.2 _ hpk).1, (h.2 _ hpk).2 8 9 (by decide) (by decide) (by decide) (by decide)⟩

/-! ## TLS record layer
(`src/quicpro/sender/tls_encryptor.py`, `src/quicpro/receiver/tls_decryptor.py`,
demo mode)

The `cryptography` library's AES-GCM primitive is external; it is modelled as an
abstract AEAD cipher carrying its documented functional contract: decryption
with the same key and nonce inverts encryption, and a ciphertext is never empty
(AES-GCM appends a 16-byte tag). -/

structure AEAD where
  enc : List Nat → List Nat → List Nat → List Nat
  dec : List Nat → List Nat → List Nat → Option (List Nat)
  dec_enc : ∀ key nonce pt, dec key nonce (enc key nonce pt) = some pt
  enc_ne_nil : ∀ key nonce pt, enc key nonce pt ≠ []

/-- `_compute_nonce` (identical in `tls_encryptor.py` and `tls_decryptor.py`):
XOR the static IV with the 12-byte big-endian sequence number; Python's `zip`
truncates to the shorter list, as `List.zipWith` does. -/
def computeNonce (iv : List Nat) (seq : Nat) : List Nat :=
  List.zipWith (fun a b => a ^^^ b) iv (toBytesBE 12 seq)

/-- `TLSEncryptor.encrypt` (demo mode): emits `u64_be(seq) || AESGCM(key, nonce, pt)`
via `udp_sender.send`; the result models the record handed to the sender.
`seq.to_bytes(8, "big")` raises `OverflowError` for `seq ≥ 2^64`. -/
def tlsEncrypt (A : AEAD) (key iv : List Nat) (seq : Nat) (pt : List Nat) :
    Except String (List Nat) :=
  if seq < 256 ^ 8 then
    .ok (toBytesBE 8 seq ++ A.enc key (computeNonce iv seq) pt)
  else .error "Demo encryption failed: OverflowError"

/-- `TLSDecryptor.decrypt` (demo mode): a successful result models the plaintext
passed on to `quic_receiver.receive`. -/
def tlsDecrypt (A : AEAD) (key iv : List Nat) (record : List Nat) :
    Except String (List Nat) :=
  if record.length < 9 then
    .error "Demo decryption failed: Encrypted packet is too short."
  else
    match A.dec key (computeNonce iv (fromBytesBE (record.take 8))) (record.drop 8) with
    | some pt => .ok pt
    | none => .error "Demo decryption failed: InvalidTag"

/-- C2: for every key, IV, sequence number below 2^64 and plaintext, the record
produced by `TLSEncryptor.encrypt` is `u64_be(seq)` followed by the AEAD
ciphertext under nonce `IV XOR be12(seq)`, and `TLSDecryptor.decrypt` on that
record with the same key and IV recovers exactly the original plaintext
(the value delivered to the receiver). -/
theorem tls_record_roundtrip (A : AEAD) (key iv : List Nat) (seq : Nat)
    (pt : List Nat) (hseq : seq < 256 ^ 8) :
    tlsEncrypt A key iv seq pt
      = Except.ok (toBytesBE 8 seq ++ A.enc key (computeNonce iv seq) pt)
    ∧ tlsDecrypt A key iv (toBytesBE 8 seq ++ A.enc key (computeNonce iv seq) pt)
      = Except.ok pt := by
  have h8 : (toBytesBE 8 seq).length = 8 := toBytesBE_length 8 seq
  have hct := A.enc_ne_nil key (computeNonce iv seq) pt
  constructor
  · rw [tlsEncrypt, if_pos hseq]
  · have hlen : ¬ (toBytesBE 8 seq ++ A.enc key (computeNonce iv seq) pt).length < 9 := by
      rw [List.length_append, h8]
      have : A.enc key (computeNonce iv seq) pt ≠ [] := hct
      have hpos : 0 < (A.enc key (computeNonce iv seq) pt).length :=
        List.length_pos.mpr this
      omega
    rw [tlsDecrypt, if_neg hlen, take_app _ _ _ h8, drop_app _ _ _ h8,
      fromBytesBE_toBytesBE 8 seq hseq, A.dec_enc]

/-- A concrete toy AEAD satisfying the AES-GCM contract, used only to witness
the abstract-cipher hypotheses. -/
def tagAEAD : AEAD where
  enc := fun _ _ pt => 0 :: pt
  dec := fun _ _ ct => match ct with | [] => none | _ :: r => some r
  dec_enc := by intro k n pt; rfl
  enc_ne_nil := by intro k n pt; simp

theorem tls_record_roundtrip_witness :
    tlsDecrypt tagAEAD [1] (List.replicate 12 7)
        (toBytesBE 8 5 ++ tagAEAD.enc [1] (computeNonce (List.replicate 12 7) 5) [1, 2, 3])
      = Except.ok [1, 2, 3] :=
  (tls_record_roundtrip tagAEAD [1] (List.replicate 12 7) 5 [1, 2, 3] (by norm_num)).2

/-! ## QPACK Huffman coding
(`src/quicpro/utils/http3/qpack/huffman/constants.py`)

The table below is transcribed entry-for-entry from `HPACK_HUFFMAN_TABLE` in the
source.  Its docstring claims conformance with RFC 7541 Appendix B, but the
transcription shows it deviates: among others, symbols 50 and 127 both carry
code `(0x2, 5)`, symbols 146 and 152 both carry `(0xfffec, 20)`, and entries
such as `(0xfffdcc, 20)` do not fit their declared bit length. -/

def hpackHuffmanTable : List (Nat × Nat) := [
  (0x1ff8, 13), (0x7fffd8, 23), (0xfffffe2, 28), (0xfffffe3, 28),
  (0xfffffe4, 28), (0xfffffe5, 28), (0xfffffe6, 28), (0xfffffe7, 28),
  (0xfffffe8, 28), (0xffffea, 24), (0x3ffffffc, 30), (0xfffffe9, 28),
  (0xfffffea, 28), (0x3ffffffd, 30), (0xfffffeb, 28), (0xfffffec, 28),
  (0xfffffed, 28), (0xfffffee, 28), (0xfffffef, 28), (0xffffff0, 28),
  (0xffffff1, 28), (0xffffff2, 28), (0x3ffffffe, 30), (0xffffff3, 28),
  (0xffffff4, 28), (0xffffff5, 28), (0xffffff6, 28), (0xffffff7, 28),
  (0xffffff8, 28), (0xffffff9, 28), (0xffffffa, 28), (0xffffffb, 28),
  (0x14, 6), (0x3f8, 10), (0x3f9, 10), (0xffa, 12),
  (0x1ff9, 13), (0x15, 6), (0xf8, 8), (0x7fa, 11),
  (0x3fa, 10), (0x3fb, 10), (0xf9, 8), (0x7fb, 11),
  (0xfa, 8), (0x16, 6), (0x17, 6), (0x18, 6),
  (0x0, 5), (0x1, 5), (0x2, 5), (0x19, 6),
  (0x1a, 6), (0x1b, 6), (0x1c, 6), (0x1d, 6),
  (0x1e, 6), (0x1f, 6), (0x5c, 7), (0xfb, 8),
  (0x7ffc, 15), (0x20, 6), (0xffb, 12), (0x3fc, 10),
  (0x1ffa, 13), (0x21, 6), (0x5d, 7), (0x5e, 7),
  (0x5f, 7), (0x60, 7), (0x61, 7), (0x62, 7),
  (0x63, 7), (0x64, 7), (0x65, 7), (0x66, 7),
  (0x67, 7), (0x68, 7), (0x69, 7), (0x6a, 7),
  (0x6b, 7), (0x6c, 7), (0x6d, 7), (0x6e, 7),
  (0x6f, 7), (0x70, 7), (0x71, 7), (0x72, 7),
  (0xfc, 8), (0x73, 7), (0xfd, 8), (0x1ffb, 13),
  (0x7fff0, 19), (0x1ffc, 13), (0x3ffc, 14), (0x22, 6),
  (0x7ffd, 15), (0x3, 5), (0x23, 6), (0x4, 5),
  (0x24, 6), (0x5, 5), (0x25, 6), (0x26, 6),
  (0x27, 6), (0x6, 5), (0x74, 7), (0x75, 7),
  (0x28, 6), (0x29, 6), (0x2a, 6), (0x7, 5),
  (0x2b, 6), (0x76, 7), (0x2c, 6), (0x8, 5),
  (0x9, 5), (0x2d, 6), (0x77, 7), (0x78, 7),
  (0x79, 7), (0x7a, 7), (0x7b, 7), (0x7ffe, 15),
  (0x7fc, 11), (0x3ffd, 14), (0x1ffd, 13), (0x2, 5),
  (0xfffe0, 20), (0xfffe1, 20), (0xfffde, 20), (0xfffe2, 20),
  (0xfffe3, 20), (0xfffe4, 20), (0xfffe5, 20), (0xfffe6, 20),
  (0xfffe7, 20), (0xfff9f, 20), (0xfffda, 20), (0xfffdb, 20),
  (0xfffdcc, 20), (0xfffdd, 20), (0xfffdde, 20), (0xfffdf, 20),
  (0xfffe8, 20), (0xfffe9, 20), (0xfffec, 20), (0xfffed, 20),
  (0xfffee, 20), (0xfffef, 20), (0xfffea, 20), (0xfffeb, 20),
  (0xfffec, 20), (0xfffed, 20), (0xfffef, 20), (0xffff0, 20),
  (0xffff1, 20), (0xffff2, 20), (0xffff3, 20), (0xffff4, 20),
  (0xffff5, 20), (0xffff6, 20), (0xffff7, 20), (0xffff8, 20),
  (0xffff9, 20), (0xffffa, 20), (0xffffb, 20), (0xffffc, 20),
  (0xffffd, 20), (0xffffe, 20), (0xfffff, 20), (0x100000, 20),
  (0x100001, 20), (0x100002, 20), (0x100003, 20), (0x100004, 20),
  (0x100005, 20), (0x100006, 20), (0x100007, 20), (0x100008, 20),
  (0x100009, 20), (0x10000a, 20), (0x10000b, 20), (0x10000c, 20),
  (0x10000d, 20), (0x10000e, 20), (0x10000f, 20), (0x100010, 20),
  (0x100011, 20), (0x100012, 20), (0x100013, 20), (0x100014, 20),
  (0x100015, 21), (0x100016, 21), (0x100017, 21), (0x100018, 21),
  (0x100019, 21), (0x10001a, 21), (0x10001b, 21), (0x10001c, 21),
  (0x10001d, 21), (0x10001e, 21), (0x10001f, 21), (0x100020, 21),
  (0x100021, 21), (0x100022, 21), (0x100023, 21), (0x100024, 21),
  (0x100025, 21), (0x100026, 21), (0x100027, 21), (0x100028, 21),
  (0x100029, 21), (0x10002a, 21), (0x10002b, 21), (0x10002c, 21),
  (0x10002d, 21), (0x10002e, 21), (0x10002f, 21), (0x100030, 21),
  (0x100031, 21), (0x100032, 21), (0x100033, 21), (0x100034, 21),
  (0x100035, 21), (0x100036, 21), (0x100037, 21), (0x100038, 21),
  (0x100039, 21), (0x10003a, 21), (0x10003b, 21), (0x10003c, 21),
  (0x10003d, 21), (0x10003e, 21), (0x10003f, 21), (0x100040, 21),
  (0x100041, 21), (0x100042, 21), (0x100043, 21), (0x100044, 21),
  (0x100045, 21), (0x100046, 21), (0x100047, 21), (0x100048, 21),
  (0x100049, 21), (0x10004a, 21), (0x10004b, 21), (0x10004c, 21),
  (0x10004d, 21), (0x10004e, 21), (0x10004f, 21), (0x100050, 21),
  (0x100051, 21), (0x100052, 21), (0x100053, 21), (0x100054, 21)
]

/-- Modelled from the spec: the functions `huffman_encode`/`huffman_decode` of
module `quicpro.utils.http3.qpack.huffman` are imported by the QPACK encoder and
decoder but are absent from src (the package contains only `constants.py`).
The spec defines encoding as: "Encode concatenates codes MSB-first into a bit
buffer, zero-padding the final byte with 1-bits (EOS-prefix)."  `codeBits`
yields the `len` low bits of `code`, most significant first. -/
def codeBits (code len : Nat) : List Bool :=
  (List.range len).reverse.map (fun j => code.testBit j)

/-- Bit pattern emitted for one input byte, per the source table. -/
def symbolBits (sym : Nat) : List Bool :=
  match hpackHuffmanTable.get? sym with
  | some cl => codeBits cl.1 cl.2
  | none => []

/-- Value of at most eight bits, most significant first. -/
def byteOfBits (bs : List Bool) : Nat :=
  bs.foldl (fun a b => 2 * a + (if b then 1 else 0)) 0

/-- Pack a bit stream into bytes, eight bits per byte most significant first,
padding the final byte with 1-bits. -/
def packBits : List Bool → List Nat
  | [] => []
  | b1 :: b2 :: b3 :: b4 :: b5 :: b6 :: b7 :: b8 :: rest =>
    byteOfBits [b1, b2, b3, b4, b5, b6, b7, b8] :: packBits rest
  | bits => [byteOfBits (bits ++ List.replicate (8 - bits.length) true)]

/-- Modelled from the spec: `huffman_encode` over the source table. -/
def huffman_encode (bs : List Nat) : List Nat :=
  packBits (bs.flatMap symbolBits)

/-- Most-significant-first bits of a byte string. -/
def bytesToBits (bs : List Nat) : List Bool :=
  bs.flatMap (fun byte => (List.range 8).reverse.map (fun j => byte.testBit j))

/-- First symbol of the table whose code matches the head of the bit stream,
together with its bit length. -/
def matchSymbolAux : Nat → List (Nat × Nat) → List Bool → Option (Nat × Nat)
  | _, [], _ => none
  | i, cl :: rest, bits =>
    if 0 < cl.2 ∧ bits.take cl.2 = codeBits cl.1 cl.2 then some (i, cl.2)
    else matchSymbolAux (i + 1) rest bits

/-- Modelled from the spec: "Decode walks the table on the bit stream; reject
trailing non-padding bits."  Fewer than eight remaining all-one bits are
accepted as padding; fuel is the bit count, and every table entry consumes at
least one bit. -/
def huffmanDecodeBits : Nat → List Bool → Option (List Nat)
  | _, [] => some []
  | 0, _ :: _ => none
  | fuel + 1, b :: rest =>
    if (b :: rest).length < 8 ∧ (b :: rest).all (fun x => x = true) then some []
    else match matchSymbolAux 0 hpackHuffmanTable (b :: rest) with
      | some sl => (huffmanDecodeBits fuel ((b :: rest).drop sl.2)).map (fun r => sl.1 :: r)
      | none => none

/-- Modelled from the spec: `huffman_decode` over the source table. -/
def huffman_decode (bs : List Nat) : Option (List Nat) :=
  huffmanDecodeBits (bytesToBits bs).length (bytesToBits bs)

/-- C9: with the table of `huffman/constants.py` the Huffman round-trip fails.
Symbols 50 and 127 both carry the code `(0x2, 5)`, so `huffman_encode` maps the
byte strings `[50]` and `[127]` to the same byte `0x17` — no decoder can invert
both — and walking the table decodes that byte to `[50]`, not `[127]`.  This
contradicts the table's own docstring ("as per RFC 7541 Appendix B"): in
RFC 7541, symbol 127 has code `(0x7ffffffc, 28)`. -/
theorem huffman_roundtrip_fails_on_duplicate_codes :
    huffman_encode [127] = huffman_encode [50]
    ∧ huffman_encode [127] = [0x17]
    ∧ huffman_decode (huffman_encode [127]) = some [50]
    ∧ huffman_decode (huffman_encode [127]) ≠ some [127] := by
  refine ⟨by decide, by decide, by decide, by decide⟩

/-! ## QPACK dynamic table
(`src/quicpro/utils/http3/qpack/encoder.py`)

Header names and values are their UTF-8 byte strings, so `header_field_size`
is `len(name) + len(value) + 32`.  The dynamic table inserts at the front
(`insert(0, ...)`) and evicts from the tail (`pop()`). -/

/-- `header_field_size` from `encoder.py`. -/
def headerFieldSize (name value : List Nat) : Nat :=
  name.length + value.length + 32

/-- Total octet consumption of a dynamic table. -/
def tableSize (t : List (List Nat × List Nat)) : Nat :=
  (t.map (fun e => headerFieldSize e.1 e.2)).sum

/-- State of a `QPACKEncoder` (auditing omitted; it only affects logging and a
round-trip re-check). -/
structure EncoderState where
  dynamicTable : List (List Nat × List Nat)
  maxDynamicTableSize : Nat
  currentDynamicTableSize : Nat
deriving DecidableEq

/-- The `while` loop of `_evict_dynamic_entries`, fuelled by the table length
(each iteration pops one entry, so the fuel is never exhausted). -/
def evictLoopFuel (maxSize required : Nat) :
    Nat → List (List Nat × List Nat) → Nat → List (List Nat × List Nat) × Nat
  | 0, t, cur => (t, cur)
  | fuel + 1, t, cur =>
    if maxSize < cur + required ∧ t ≠ [] then
      evictLoopFuel maxSize required fuel t.dropLast
        (cur - headerFieldSize (t.getLastD ([], [])).1 (t.getLastD ([], [])).2)
    else (t, cur)

/-- The eviction loop of `_evict_dynamic_entries`: pop entries from the tail
while the new entry would not fit and the table is non-empty. -/
def evictLoop (maxSize required : Nat) (t : List (List Nat × List Nat))
    (cur : Nat) : List (List Nat × List Nat) × Nat :=
  evictLoopFuel maxSize required t.length t cur

/-- `_add_to_dynamic_table` composed with `_evict_dynamic_entries`: evict, then
either raise `RuntimeError` (second component `false`; the evictions performed
so far are kept, as in the source) or insert the new entry at the front. -/
def addToDynamicTable (st : EncoderState) (name value : List Nat) :
    EncoderState × Bool :=
  if st.maxDynamicTableSize < headerFieldSize name value then
    (EncoderState.mk
      (evictLoop st.maxDynamicTableSize (headerFieldSize name value)
        st.dynamicTable st.currentDynamicTableSize).1
      st.maxDynamicTableSize
      (evictLoop st.maxDynamicTableSize (headerFieldSize name value)
        st.dynamicTable st.currentDynamicTableSize).2,
     false)
  else
    (EncoderState.mk
      ((name, value) :: (evictLoop st.maxDynamicTableSize (headerFieldSize name value)
        st.dynamicTable st.currentDynamicTableSize).1)
      st.maxDynamicTableSize
      ((evictLoop st.maxDynamicTableSize (headerFieldSize name value)
        st.dynamicTable st.currentDynamicTableSize).2 + headerFieldSize name value),
     true)

/-- A fresh encoder followed by a sequence of dynamic-table insertions. -/
def applyAdds (maxSize : Nat) (ops : List (List Nat × List Nat)) : EncoderState :=
  ops.foldl (fun st op => (addToDynamicTable st op.1 op.2).1) ⟨[], maxSize, 0⟩

/-- The tracked size field agrees with the real octet sum and stays within the
configured bound. -/
def encInv (st : EncoderState) : Prop :=
  st.currentDynamicTableSize = tableSize st.dynamicTable
  ∧ tableSize st.dynamicTable ≤ st.maxDynamicTableSize

theorem tableSize_append (a b : List (List Nat × List Nat)) :
    tableSize (a ++ b) = tableSize a + tableSize b := by
  simp [tableSize]

theorem dropLast_append_getLastD {α : Type} (d : α) :
    ∀ t : List α, t ≠ [] → t.dropLast ++ [t.getLastD d] = t := by
  intro t
  induction t with
  | nil => intro h; exact absurd rfl h
  | cons a tl ih =>
    intro _
    cases tl with
    | nil => rfl
    | cons b tl2 =>
      have h2 := ih (by simp)
      simp only [List.getLastD_cons] at h2
      simp only [List.dropLast_cons₂, List.cons_append, List.getLastD_cons]
      rw [h2]

theorem evictLoopFuel_spec (maxSize required : Nat) :
    ∀ fuel t cur, t.length ≤ fuel → cur = tableSize t →
      (evictLoopFuel maxSize required fuel t cur).2
        = tableSize (evictLoopFuel maxSize required fuel t cur).1
      ∧ ∃ k, k ≤ t.length
          ∧ (evictLoopFuel maxSize required fuel t cur).1 = t.take k
          ∧ (tableSize (t.take k) + required ≤ maxSize ∨ k = 0)
          ∧ ∀ j, k < j → j ≤ t.length →
              maxSize < tableSize (t.take j) + required := by
  intro fuel
  induction fuel with
  | zero =>
    intro t cur hf hcur
    have ht : t = [] := List.length_eq_zero.mp (Nat.le_zero.mp hf)
    subst ht
    refine ⟨by simpa [evictLoopFuel] using hcur, 0, by simp [evictLoopFuel], ?_⟩
    simp [evictLoopFuel]
    omega
  | succ fuel ih =>
    intro t cur hf hcur
    by_cases hc : maxSize < cur + required ∧ t ≠ []
    · rw [show evictLoopFuel maxSize required (fuel + 1) t cur
          = evictLoopFuel maxSize required fuel t.dropLast
              (cur - headerFieldSize (t.getLastD ([], [])).1 (t.getLastD ([], [])).2)
        from by rw [evictLoopFuel]; rw [if_pos hc]]
      have hsplit : t.dropLast ++ [t.getLastD ([], [])] = t :=
        dropLast_append_getLastD _ t hc.2
      have hsize : tableSize t = tableSize t.dropLast
          + headerFieldSize (t.getLastD ([], [])).1 (t.getLastD ([], [])).2 := by
        conv_lhs => rw [← hsplit]
        rw [tableSize_append]
        simp [tableSize]
      have hcur2 : cur - headerFieldSize (t.getLastD ([], [])).1 (t.getLastD ([], [])).2
          = tableSize t.dropLast := by omega
      have hlen : t.dropLast.length ≤ fuel := by
        have := List.length_dropLast t
        have hpos : 0 < t.length := List.length_pos.mpr hc.2
        omega
      obtain ⟨h1, k, hk, hres, hfit, hmin⟩ := ih t.dropLast _ hlen hcur2
      have hdrop_take : ∀ m, m ≤ t.dropLast.length → t.dropLast.take m = t.take m := by
        intro m hm
        rw [List.dropLast_eq_take, List.take_take]
        congr 1
        rw [List.length_dropLast] at hm
        omega
      refine ⟨h1, k, ?_, ?_, ?_, ?_⟩
      · have := List.length_dropLast t
        omega
      · rw [hres, hdrop_take k hk]
      · rw [← hdrop_take k hk]
        exact hfit
      · intro j hkj hjt
        rcases Nat.lt_or_ge j t.length with hjlt | hjge
        · have hj2 : j ≤ t.dropLast.length := by
            rw [List.length_dropLast]; omega
          rw [← hdrop_take j hj2]
          exact hmin j hkj hj2
        · have hj3 : j = t.length := by omega
          rw [hj3, List.take_length, ← hcur]
          exact hc.1
    · rw [show evictLoopFuel maxSize required (fuel + 1) t cur = (t, cur)
        from by rw [evictLoopFuel]; rw [if_neg hc]]
      by_cases hempty : t = []
      · subst hempty
        refine ⟨by simpa using hcur, 0, by simp, by simp, ?_, ?_⟩
        · right; rfl
        · intro j h1 h2; simp at h2; omega
      · refine ⟨hcur, t.length, le_refl _, by rw [List.take_length], ?_, ?_⟩
        · left
          rw [List.take_length, ← hcur]
          push_neg at hc
          exact Nat.le_of_not_lt (fun hlt => absurd hempty (by simpa using hc hlt))
        · intro j h1 h2; omega

theorem addToDynamicTable_preserves_inv (st : EncoderState) (name value : List Nat)
    (hinv : encInv st) :
    encInv (addToDynamicTable st name value).1
    ∧ (addToDynamicTable st name value).1.maxDynamicTableSize
        = st.maxDynamicTableSize := by
  obtain ⟨hcur, hle⟩ := hinv
  obtain ⟨h1, k, hk, hres, hfit, hmin⟩ :=
    evictLoopFuel_spec st.maxDynamicTableSize (headerFieldSize name value)
      st.dynamicTable.length st.dynamicTable st.currentDynamicTableSize
      (le_refl _) hcur
  have htk : tableSize (st.dynamicTable.take k) ≤ st.maxDynamicTableSize := by
    rcases hfit with h | h
    · omega
    · subst h; simp [tableSize]
  simp only [addToDynamicTable, evictLoop]
  by_cases hbig : st.maxDynamicTableSize < headerFieldSize name value
  · rw [if_pos hbig]
    refine ⟨⟨h1, ?_⟩, rfl⟩
    rw [hres]
    exact htk
  · have hfit2 : tableSize (st.dynamicTable.take k) + headerFieldSize name value
        ≤ st.maxDynamicTableSize := by
      rcases hfit with h | h
      · exact h
      · subst h
        simp only [List.take_zero, tableSize, List.map_nil, List.sum_nil]
        omega
    rw [if_neg hbig]
    refine ⟨⟨?_, ?_⟩, rfl⟩
    · show _ + headerFieldSize name value = tableSize ((name, value) :: _)
      simp only [tableSize, List.map_cons, List.sum_cons]
      rw [h1, hres]
      simp only [tableSize]
      omega
    · show tableSize ((name, value) :: _) ≤ st.maxDynamicTableSize
      simp only [tableSize, List.map_cons, List.sum_cons]
      rw [hres]
      simp only [tableSize] at hfit2
      omega

theorem foldl_adds_inv (ops : List (List Nat × List Nat)) :
    ∀ st : EncoderState, encInv st →
      encInv (ops.foldl (fun st op => (addToDynamicTable st op.1 op.2).1) st)
      ∧ (ops.foldl (fun st op => (addToDynamicTable st op.1 op.2).1) st).maxDynamicTableSize
          = st.maxDynamicTableSize := by
  induction ops with
  | nil => intro st h; exact ⟨h, rfl⟩
  | cons op rest ih =>
    intro st h
    simp only [List.foldl_cons]
    obtain ⟨h1, h2⟩ := addToDynamicTable_preserves_inv st op.1 op.2 h
    obtain ⟨h3, h4⟩ := ih _ h1
    exact ⟨h3, by rw [h4, h2]⟩

/-- C4: after any sequence of insertions into a fresh QPACK encoder the dynamic
table octet size (sum of `len(name)+len(value)+32`) never exceeds
`max_dynamic_table_size`; a single insertion evicts from the tail exactly while
the new entry does not fit and the table is non-empty (the resulting table is
the new entry in front of a maximal fitting prefix of the old table); and
inserting a single entry whose size exceeds the maximum fails. -/
theorem qpack_dynamic_table_invariant (maxSize : Nat)
    (ops : List (List Nat × List Nat)) (st : EncoderState)
    (name value : List Nat) (hinv : encInv st) :
    tableSize (applyAdds maxSize ops).dynamicTable ≤ maxSize
    ∧ (∃ k, k ≤ st.dynamicTable.length
        ∧ (addToDynamicTable st name value).1.dynamicTable
            = (if st.maxDynamicTableSize < headerFieldSize name value
               then [] else [(name, value)]) ++ st.dynamicTable.take k
        ∧ (tableSize (st.dynamicTable.take k) + headerFieldSize name value
             ≤ st.maxDynamicTableSize ∨ k = 0)
        ∧ ∀ j, k < j → j ≤ st.dynamicTable.length →
            st.maxDynamicTableSize < tableSize (st.dynamicTable.take j)
              + headerFieldSize name value)
    ∧ (st.maxDynamicTableSize < headerFieldSize name value →
        (addToDynamicTable st name value).2 = false) := by
  refine ⟨?_, ?_, ?_⟩
  · have h := foldl_adds_inv ops ⟨[], maxSize, 0⟩ ⟨rfl, by simp [tableSize]⟩
    have h2 := h.1.2
    rw [h.2] at h2
    exact h2
  · obtain ⟨h1, k, hk, hres, hfit, hmin⟩ :=
      evictLoopFuel_spec st.maxDynamicTableSize (headerFieldSize name value)
        st.dynamicTable.length st.dynamicTable st.currentDynamicTableSize
        (le_refl _) hinv.1
    refine ⟨k, hk, ?_, hfit, hmin⟩
    simp only [addToDynamicTable, evictLoop]
    by_cases hbig : st.maxDynamicTableSize < headerFieldSize name value
    · rw [if_pos hbig, if_pos hbig]
      simpa using hres
    · rw [if_neg hbig, if_neg hbig]
      simpa using hres
  · intro hbig
    simp only [addToDynamicTable]
    rw [if_pos hbig]

theorem qpack_dynamic_table_invariant_witness :
    tableSize (applyAdds 100
        [(List.replicate 8 97, []), (List.replicate 9 98, [])]).dynamicTable ≤ 100
    ∧ (addToDynamicTable ⟨[], 50, 0⟩ (List.replicate 30 99) []).2 = false := by
  have h := qpack_dynamic_table_invariant 100
    [(List.replicate 8 97, []), (List.replicate 9 98, [])]
    ⟨[], 50, 0⟩ (List.replicate 30 99) [] ⟨rfl, by decide⟩
  exact ⟨h.1, h.2.2 (by decide)⟩

/-! ## QPACK encoder
(`src/quicpro/utils/http3/qpack/encoder.py`)

Header names and values are byte strings (`List Nat`); `asciiBytes` renders the
ASCII literals of the source.  The source file declares `STATIC_TABLE` with 96
entries and then raises `RuntimeError` at import time because it asserts 99;
the table below is the transcription of the 96 entries actually defined. -/

def asciiBytes (s : String) : List Nat :=
  s.data.map (fun c => c.toNat)

def staticTable : List (List Nat × List Nat) := [
  (asciiBytes ":authority", asciiBytes ""),
  (asciiBytes ":method", asciiBytes "GET"),
  (asciiBytes ":method", asciiBytes "POST"),
  (asciiBytes ":path", asciiBytes "/"),
  (asciiBytes ":path", asciiBytes "/index.html"),
  (asciiBytes ":scheme", asciiBytes "https"),
  (asciiBytes ":scheme", asciiBytes "http"),
  (asciiBytes ":status", asciiBytes "200"),
  (asciiBytes ":status", asciiBytes "204"),
  (asciiBytes ":status", asciiBytes "206"),
  (asciiBytes ":status", asciiBytes "304"),
  (asciiBytes ":status", asciiBytes "400"),
  (asciiBytes ":status", asciiBytes "404"),
  (asciiBytes ":status", asciiBytes "500"),
  (asciiBytes "accept-charset", asciiBytes ""),
  (asciiBytes "accept-encoding", asciiBytes "gzip, deflate, br"),
  (asciiBytes "accept-language", asciiBytes ""),
  (asciiBytes "accept-ranges", asciiBytes ""),
  (asciiBytes "accept", asciiBytes ""),
  (asciiBytes "access-control-allow-origin", asciiBytes ""),
  (asciiBytes "age", asciiBytes ""),
  (asciiBytes "allow", asciiBytes ""),
  (asciiBytes "authorization", asciiBytes ""),
  (asciiBytes "cache-control", asciiBytes ""),
  (asciiBytes "content-disposition", asciiBytes ""),
  (asciiBytes "content-encoding", asciiBytes ""),
  (asciiBytes "content-language", asciiBytes ""),
  (asciiBytes "content-length", asciiBytes ""),
  (asciiBytes "content-location", asciiBytes ""),
  (asciiBytes "content-range", asciiBytes ""),
  (asciiBytes "content-type", asciiBytes ""),
  (asciiBytes "cookie", asciiBytes ""),
  (asciiBytes "date", asciiBytes ""),
  (asciiBytes "etag", asciiBytes ""),
  (asciiBytes "expect", asciiBytes ""),
  (asciiBytes "expires", asciiBytes ""),
  (asciiBytes "from", asciiBytes ""),
  (asciiBytes "host", asciiBytes ""),
  (asciiBytes "if-match", asciiBytes ""),
  (asciiBytes "if-modified-since", asciiBytes ""),
  (asciiBytes "if-none-match", asciiBytes ""),
  (asciiBytes "if-range", asciiBytes ""),
  (asciiBytes "if-unmodified-since", asciiBytes ""),
  (asciiBytes "last-modified", asciiBytes ""),
  (asciiBytes "link", asciiBytes ""),
  (asciiBytes "location", asciiBytes ""),
  (asciiBytes "max-forwards", asciiBytes ""),
  (asciiBytes "proxy-authenticate", asciiBytes ""),
  (asciiBytes "proxy-authorization", asciiBytes ""),
  (asciiBytes "range", asciiBytes ""),
  (asciiBytes "referer", asciiBytes ""),
  (asciiBytes "refresh", asciiBytes ""),
  (asciiBytes "retry-after", asciiBytes ""),
  (asciiBytes "server", asciiBytes ""),
  (asciiBytes "set-cookie", asciiBytes ""),
  (asciiBytes "strict-transport-security", asciiBytes ""),
  (asciiBytes "transfer-encoding", asciiBytes ""),
  (asciiBytes "user-agent", asciiBytes ""),
  (asciiBytes "vary", asciiBytes ""),
  (asciiBytes "via", asciiBytes ""),
  (asciiBytes "www-authenticate", asciiBytes ""),
  (asciiBytes "disposition", asciiBytes ""),
  (asciiBytes "content-security-policy", asciiBytes ""),
  (asciiBytes "content-transfer-encoding", asciiBytes ""),
  (asciiBytes "x-content-type-options", asciiBytes ""),
  (asciiBytes "x-frame-options", asciiBytes ""),
  (asciiBytes "x-xss-protection", asciiBytes ""),
  (asciiBytes "dn", asciiBytes ""),
  (asciiBytes "downlink", asciiBytes ""),
  (asciiBytes "early-data", asciiBytes ""),
  (asciiBytes "ect", asciiBytes ""),
  (asciiBytes "rtt", asciiBytes ""),
  (asciiBytes "server-timing", asciiBytes ""),
  (asciiBytes "timing-allow-origin", asciiBytes ""),
  (asciiBytes "upgrade", asciiBytes ""),
  (asciiBytes "via2", asciiBytes ""),
  (asciiBytes "x-powered-by", asciiBytes ""),
  (asciiBytes "x-correlation-id", asciiBytes ""),
  (asciiBytes "x-request-id", asciiBytes ""),
  (asciiBytes "x-strict-transport-security", asciiBytes ""),
  (asciiBytes "x-forwarded-for", asciiBytes ""),
  (asciiBytes "x-forwarded-proto", asciiBytes ""),
  (asciiBytes "x-real-ip", asciiBytes ""),
  (asciiBytes "traceparent", asciiBytes ""),
  (asciiBytes "tracestate", asciiBytes ""),
  (asciiBytes "priority", asciiBytes ""),
  (asciiBytes "dnt", asciiBytes ""),
  (asciiBytes "sec-fetch-site", asciiBytes ""),
  (asciiBytes "sec-fetch-mode", asciiBytes ""),
  (asciiBytes "sec-fetch-dest", asciiBytes ""),
  (asciiBytes "sec-fetch-user", asciiBytes ""),
  (asciiBytes "origin", asciiBytes ""),
  (asciiBytes "upgrade-insecure-requests", asciiBytes ""),
  (asciiBytes "prompt", asciiBytes ""),
  (asciiBytes "purpose", asciiBytes ""),
  (asciiBytes "sec-ch-ua", asciiBytes "")
]

/-- Tail loop of `encode_integer`, fuelled (`v` shrinks by a factor 128 each
iteration, so a fuel of `v` always suffices). -/
def encodeIntTailFuel : Nat → Nat → List Nat
  | 0, v => [v]
  | fuel + 1, v => if 128 ≤ v then (v % 128 + 128) :: encodeIntTailFuel fuel (v / 128) else [v]

/-- `encode_integer` from `encoder.py` (QPACK variable-length integers). -/
def encodeInteger (value prefixBits : Nat) : List Nat :=
  if value < 2 ^ prefixBits - 1 then [value]
  else (2 ^ prefixBits - 1) :: encodeIntTailFuel (value - (2 ^ prefixBits - 1))
    (value - (2 ^ prefixBits - 1))

/-- `_find_header_field`: search the static table first, then the dynamic
table, returning a 1-based index into the combined table. -/
def findHeaderField (st : EncoderState) (name value : List Nat) : Bool × Nat :=
  match staticTable.findIdx? (fun e => e.1 == name && e.2 == value) with
  | some i => (true, i + 1)
  | none =>
    match st.dynamicTable.findIdx? (fun e => e.1 == name && e.2 == value) with
    | some i => (true, staticTable.length + i + 1)
    | none => (false, 0)

/-- Indexed representation: 6-bit-prefix integer with the high bit set on the
first byte. -/
def encodeIndexed (index : Nat) : List Nat :=
  match encodeInteger index 6 with
  | [] => []
  | x :: xs => (x ||| 0x80) :: xs

/-- `_encode_literal`: flag byte 0x00 (literal with incremental indexing), then
5-bit-prefix length and Huffman-coded name, then 7-bit-prefix length and
Huffman-coded value. -/
def encodeLiteral (name value : List Nat) : List Nat :=
  0x00 :: (encodeInteger (huffman_encode name).length 5 ++ huffman_encode name
    ++ encodeInteger (huffman_encode value).length 7 ++ huffman_encode value)

/-- `QPACKEncoder.encode` (auditing disabled, its default): for each header,
an indexed representation when found in a table, otherwise a literal followed
by insertion into the dynamic table; a `RuntimeError` raised by the insertion
propagates. -/
def qpackEncode (st : EncoderState) :
    List (List Nat × List Nat) → Except String (List Nat × EncoderState)
  | [] => .ok ([], st)
  | (name, value) :: rest =>
    if (findHeaderField st name value).1 then
      match qpackEncode st rest with
      | .ok br => .ok (encodeIndexed (findHeaderField st name value).2 ++ br.1, br.2)
      | .error e => .error e
    else
      if (addToDynamicTable st name value).2 then
        match qpackEncode (addToDynamicTable st name value).1 rest with
        | .ok br => .ok (encodeLiteral name value ++ br.1, br.2)
        | .error e => .error e
      else .error "Header field size exceeds maximum dynamic table size."

/-- First byte of the emitted header block, when encoding succeeded. -/
def qpackBlockHead (r : Except String (List Nat × EncoderState)) : Option Nat :=
  match r with
  | .ok br => br.1.head?
  | .error _ => none

/-- Dynamic table left behind by an encoding run, when it succeeded. -/
def qpackResultTable (r : Except String (List Nat × EncoderState)) :
    Option (List (List Nat × List Nat)) :=
  match r with
  | .ok br => some br.2.dynamicTable
  | .error _ => none

/-- C3 counterexample: encoding the header `authorization: secret` with a fresh
encoder emits flag byte 0x00 (literal with incremental indexing), not the
never-indexed flag 0x10, and the header IS inserted into the dynamic table. -/
theorem qpack_sensitive_header_counterexample :
    qpackBlockHead (qpackEncode ⟨[], 4096, 0⟩
        [(asciiBytes "authorization", asciiBytes "secret")]) = some 0x00
    ∧ qpackResultTable (qpackEncode ⟨[], 4096, 0⟩
        [(asciiBytes "authorization", asciiBytes "secret")])
      = some [(asciiBytes "authorization", asciiBytes "secret")]
    ∧ ¬ (qpackBlockHead (qpackEncode ⟨[], 4096, 0⟩
          [(asciiBytes "authorization", asciiBytes "secret")]) = some 0x10
         ∧ qpackResultTable (qpackEncode ⟨[], 4096, 0⟩
          [(asciiBytes "authorization", asciiBytes "secret")]) = some []) := by
  refine ⟨by decide, by decide, by decide⟩

/-- C3 amended: a header (such as `authorization` or `cookie` with a value not
in the tables) that is not found in the static or dynamic table is encoded as a
literal with incremental indexing — flag byte 0x00, not 0x10 — and IS inserted
at the front of the dynamic table (provided it fits the configured maximum, in
which case the insertion raises instead). -/
theorem qpack_literal_flag_and_insertion (st : EncoderState)
    (name value : List Nat) (rest : List (List Nat × List Nat))
    (hnf : (findHeaderField st name value).1 = false)
    (hfit : headerFieldSize name value ≤ st.maxDynamicTableSize) :
    (encodeLiteral name value).head? = some 0x00
    ∧ (addToDynamicTable st name value).1.dynamicTable.head? = some (name, value)
    ∧ qpackEncode st ((name, value) :: rest)
        = (match qpackEncode (addToDynamicTable st name value).1 rest with
           | .ok br => .ok (encodeLiteral name value ++ br.1, br.2)
           | .error e => .error e) := by
  have hok : (addToDynamicTable st name value).2 = true := by
    simp only [addToDynamicTable]
    rw [if_neg (by omega)]
  refine ⟨rfl, ?_, ?_⟩
  · simp only [addToDynamicTable]
    rw [if_neg (by omega)]
    rfl
  · simp only [qpackEncode]
    rw [hnf, hok]
    simp

theorem qpack_literal_flag_and_insertion_witness :
    (addToDynamicTable ⟨[], 4096, 0⟩ (asciiBytes "authorization")
        (asciiBytes "cred")).1.dynamicTable.head?
      = some (asciiBytes "authorization", asciiBytes "cred") :=
  (qpack_literal_flag_and_insertion ⟨[], 4096, 0⟩ (asciiBytes "authorization")
    (asciiBytes "cred") [] (by decide) (by decide)).2.1

/-! ## Congestion control
(`src/quicpro/utils/quic/congestion_control.py`, class `CongestionController`)

Byte counts are `Int` (Python ints; callers may pass any value to `on_ack`).
`float('inf')` for `ssthresh` is `Option Int` with `none` = infinity.  The two
floating-point computations — `int(self.cwnd * self.beta)` in `on_loss` and
`int(target)` of the cubic target in `_update_cwnd` — are abstracted as
arbitrary integer inputs (`shrunk`, `target`) of the corresponding operations,
so every theorem below holds for whatever values the floats produce; wall-clock
`time.time()` readings are likewise inputs (`now`). -/

structure CCState where
  mss : Int
  minCwnd : Int
  cwnd : Int
  ssthresh : Option Int
  originPoint : Int
  lastCongestionTime : Int
deriving DecidableEq

/-- `CongestionController.__init__`: every field that `config.get` can set is a
parameter, so any configuration dictionary is covered. -/
def ccInit (mss minCwnd cwnd0 : Int) (ssthresh0 : Option Int) (t0 : Int) : CCState :=
  ⟨mss, minCwnd, cwnd0, ssthresh0, cwnd0, t0⟩

/-- The comparison `self.cwnd < self.ssthresh` (any int is below infinity). -/
def ccLtSsthresh (st : CCState) : Bool :=
  match st.ssthresh with
  | none => true
  | some v => st.cwnd < v

/-- `_update_cwnd` with `int(target)` abstracted as `target`. -/
def ccUpdateCwnd (st : CCState) (target : Int) : CCState :=
  let c := if ccLtSsthresh st then st.cwnd + st.mss else max st.cwnd target
  { st with cwnd := if c < st.minCwnd then st.minCwnd else c }

/-- `on_ack`. -/
def ccOnAck (st : CCState) (acked target : Int) : CCState :=
  if ccLtSsthresh st then { st with cwnd := st.cwnd + acked }
  else ccUpdateCwnd st target

/-- `on_loss` with `int(self.cwnd * self.beta)` abstracted as `shrunk` and
`time.time()` as `now`. -/
def ccOnLoss (st : CCState) (shrunk now : Int) : CCState :=
  ⟨st.mss, st.minCwnd, max shrunk st.minCwnd, some (max shrunk st.minCwnd), st.cwnd, now⟩

/-- `reset`. -/
def ccReset (st : CCState) (now : Int) : CCState :=
  ⟨st.mss, st.minCwnd, 10 * st.mss, none, 10 * st.mss, now⟩

inductive CCOp where
  | ack (acked target : Int)
  | loss (shrunk now : Int)
  | reset (now : Int)
deriving DecidableEq

def ccStep (st : CCState) : CCOp → CCState
  | .ack a t => ccOnAck st a t
  | .loss s n => ccOnLoss st s n
  | .reset n => ccReset st n

def ccRun (st : CCState) (ops : List CCOp) : CCState :=
  ops.foldl ccStep st

/-- Acknowledgements in a trace carry nonnegative byte counts. -/
def ccOpAckNonneg : CCOp → Bool
  | .ack a _ => decide (0 ≤ a)
  | _ => true

/-- C5 counterexample: under the configuration `{"initial_cwnd": 0}` (defaults
`mss = 1460`, `min_cwnd = 2*mss = 2920`) the state reached from construction by
the empty call sequence already violates `cwnd >= min_cwnd`: `__init__` never
clamps the configured initial window. -/
theorem cc_cwnd_min_counterexample :
    (ccRun (ccInit 1460 (2 * 1460) 0 none 0) []).cwnd
      < (ccRun (ccInit 1460 (2 * 1460) 0 none 0) []).minCwnd := by
  decide

/-- C5 amended: `cwnd >= min_cwnd` holds in every state reachable by `on_ack`,
`on_loss` and `reset` calls provided the configuration satisfies
`initial_cwnd >= min_cwnd` and `min_cwnd <= 10*mss` (needed by `reset`) and
every `on_ack` is called with a nonnegative byte count; this covers the default
configuration and holds for arbitrary results of the floating-point
computations. -/
theorem cc_cwnd_ge_min (mss minCwnd cwnd0 : Int) (ss0 : Option Int) (t0 : Int)
    (ops : List CCOp)
    (hinit : minCwnd ≤ cwnd0) (hreset : minCwnd ≤ 10 * mss)
    (hacks : ∀ op ∈ ops, ccOpAckNonneg op = true) :
    minCwnd ≤ (ccRun (ccInit mss minCwnd cwnd0 ss0 t0) ops).cwnd := by
  have main : ∀ ops2 : List CCOp, (∀ op ∈ ops2, ccOpAckNonneg op = true) →
      ∀ st : CCState, st.minCwnd = minCwnd → st.mss = mss →
        minCwnd ≤ st.cwnd → minCwnd ≤ (ccRun st ops2).cwnd := by
    intro ops2
    induction ops2 with
    | nil => intro _ st _ _ h3; exact h3
    | cons op rest ih =>
      intro hops st h1 h2 h3
      have hstep : (ccStep st op).minCwnd = minCwnd ∧ (ccStep st op).mss = mss
          ∧ minCwnd ≤ (ccStep st op).cwnd := by
        cases op with
        | ack a t =>
          have ha : (0 : Int) ≤ a := by
            have := hops (.ack a t) (by simp)
            simpa [ccOpAckNonneg] using this
          simp only [ccStep, ccOnAck]
          by_cases hss : ccLtSsthresh st = true
          · rw [if_pos hss]
            exact ⟨h1, h2, by show minCwnd ≤ st.cwnd + a; omega⟩
          · rw [if_neg hss]
            simp only [ccUpdateCwnd]
            refine ⟨h1, h2, ?_⟩
            show minCwnd ≤ (if _ < st.minCwnd then st.minCwnd else _)
            split
            · omega
            · rename_i hnc
              omega
        | loss s n =>
          simp only [ccStep, ccOnLoss]
          refine ⟨h1, h2, ?_⟩
          show minCwnd ≤ max s st.minCwnd
          have := le_max_right s st.minCwnd
          omega
        | reset n =>
          simp only [ccStep, ccReset]
          refine ⟨h1, h2, ?_⟩
          show minCwnd ≤ 10 * st.mss
          omega
      have hrest : ∀ op2 ∈ rest, ccOpAckNonneg op2 = true :=
        fun op2 hm => hops op2 (by simp [hm])
      exact ih hrest _ hstep.1 hstep.2.1 hstep.2.2
  exact main ops hacks _ rfl rfl hinit

theorem cc_cwnd_ge_min_witness :
    (2920 : Int) ≤ (ccRun (ccInit 1460 2920 14600 none 0)
      [CCOp.ack 100 0, CCOp.loss 0 5, CCOp.reset 9]).cwnd :=
  cc_cwnd_ge_min 1460 2920 14600 none 0
    [CCOp.ack 100 0, CCOp.loss 0 5, CCOp.reset 9]
    (by norm_num) (by norm_num) (by decide)

/-! ## Retransmission manager
(`src/quicpro/utils/quic/congestion_control.py`, class `RetransmissionManager`)

`pending` is a `dict` keyed by packet id; Python dicts iterate in insertion
order and keep an entry's position on value update, so it is an association
list.  Wall-clock readings are `Int` inputs.  `lossEvents` counts the
`congestion_controller.on_loss()` calls the manager makes. -/

structure RtxEntry where
  packet : List Nat
  timestamp : Int
  retries : Nat
deriving DecidableEq

structure RtxState where
  pending : List (Nat × RtxEntry)
  rtxQueue : List Nat
  packetCounter : Nat
  lossEvents : Nat
deriving DecidableEq

def rtxInit : RtxState := ⟨[], [], 0, 0⟩

/-- `add_packet`: store `(packet, now, 0)` under a fresh id and return the id. -/
def addPacket (st : RtxState) (packet : List Nat) (now : Int) : RtxState × Nat :=
  (⟨st.pending ++ [(st.packetCounter, ⟨packet, now, 0⟩)], st.rtxQueue,
    st.packetCounter + 1, st.lossEvents⟩, st.packetCounter)

/-- `mark_acknowledged`: drop the entry if present. -/
def markAcknowledged (st : RtxState) (pid : Nat) : RtxState :=
  ⟨st.pending.filter (fun e => !(e.1 == pid)), st.rtxQueue, st.packetCounter,
    st.lossEvents⟩

/-- One iteration of the `process_timeouts` loop over a pending entry. -/
def processTimeoutsStep (interval : Int) (maxRetries : Nat) (now : Int)
    (acc : RtxState) (e : Nat × RtxEntry) : RtxState :=
  if interval < now - e.2.timestamp ∧ e.2.retries < maxRetries then
    ⟨acc.pending ++ [(e.1, ⟨e.2.packet, now, e.2.retries + 1⟩)],
      acc.rtxQueue ++ [e.1], acc.packetCounter, acc.lossEvents + 1⟩
  else if maxRetries ≤ e.2.retries then
    acc
  else
    ⟨acc.pending ++ [e], acc.rtxQueue, acc.packetCounter, acc.lossEvents⟩

/-- `process_timeouts`: for each pending entry, re-queue and notify the
congestion controller when timed out with retries left, drop when retries are
exhausted, keep otherwise. -/
def processTimeouts (interval : Int) (maxRetries : Nat) (now : Int)
    (st : RtxState) : RtxState :=
  st.pending.foldl (processTimeoutsStep interval maxRetries now)
    ⟨[], st.rtxQueue, st.packetCounter, st.lossEvents⟩

/-- One packet registered at `times 0` and never acknowledged, followed by `n`
`process_timeouts` calls at `times 1, ..., times n`. -/
def rtxScenario (interval : Int) (maxR : Nat) (pkt : List Nat)
    (times : Nat → Int) (n : Nat) : RtxState :=
  (List.range n).foldl
    (fun st i => processTimeouts interval maxR (times (i + 1)) st)
    (addPacket rtxInit pkt (times 0)).1

/-- C7: a packet registered with `add_packet` and never acknowledged is
re-queued by successive `process_timeouts` calls (each later than the timeout
interval after the previous event) exactly `max_retries` times — each call
incrementing its retry count, stamping the current time and notifying the
congestion controller of a loss — and the next call removes it from the pending
map entirely. -/
theorem rtx_retries_then_drop (interval : Int) (maxR : Nat) (pkt : List Nat)
    (times : Nat → Int) (hgap : ∀ i, interval < times (i + 1) - times i) :
    (∀ n, n ≤ maxR →
      rtxScenario interval maxR pkt times n
        = ⟨[(0, ⟨pkt, times n, n⟩)], List.replicate n 0, 1, n⟩)
    ∧ rtxScenario interval maxR pkt times (maxR + 1)
        = ⟨[], List.replicate maxR 0, 1, maxR⟩ := by
  have hpart1 : ∀ n, n ≤ maxR →
      rtxScenario interval maxR pkt times n
        = ⟨[(0, ⟨pkt, times n, n⟩)], List.replicate n 0, 1, n⟩ := by
    intro n
    induction n with
    | zero => intro _; rfl
    | succ m ih =>
      intro hm
      have hsc : rtxScenario interval maxR pkt times (m + 1)
          = processTimeouts interval maxR (times (m + 1))
              (rtxScenario interval maxR pkt times m) := by
        simp only [rtxScenario, List.range_succ, List.foldl_append,
          List.foldl_cons, List.foldl_nil]
      rw [hsc, ih (by omega)]
      simp only [processTimeouts, List.foldl_cons, List.foldl_nil,
        processTimeoutsStep]
      rw [if_pos ⟨hgap m, by omega⟩]
      simp [List.replicate_succ']
  refine ⟨hpart1, ?_⟩
  have hsc : rtxScenario interval maxR pkt times (maxR + 1)
      = processTimeouts interval maxR (times (maxR + 1))
          (rtxScenario interval maxR pkt times maxR) := by
    simp only [rtxScenario, List.range_succ, List.foldl_append,
      List.foldl_cons, List.foldl_nil]
  rw [hsc, hpart1 maxR (le_refl _)]
  simp only [processTimeouts, List.foldl_cons, List.foldl_nil,
    processTimeoutsStep]
  rw [if_neg (by omega), if_pos (le_refl _)]

theorem rtx_retries_then_drop_witness :
    rtxScenario 0 3 [1] (fun i => (i : Int)) 4
      = ⟨[], List.replicate 3 0, 1, 3⟩ :=
  (rtx_retries_then_drop 0 3 [1] (fun i => (i : Int))
    (by intro i; push_cast; omega)).2

/-! ## HTTP/3 streams
(`src/quicpro/utils/http3/streams/stream.py`) -/

/-- Modelled from the spec: the enum module
`quicpro.utils.http3.streams.enum.stream_state` is imported by `stream.py` but
absent from src; the spec fixes `state ∈ {IDLE, OPEN, HALF_CLOSED, CLOSED}`. -/
inductive StreamState where
  | IDLE
  | OPEN
  | HALF_CLOSED
  | CLOSED
deriving DecidableEq

structure Http3Stream where
  streamId : Nat
  state : StreamState
  buffer : List Nat
deriving DecidableEq

/-- `Stream.open`: IDLE → OPEN only (otherwise just logs a warning). -/
def streamOpen (s : Http3Stream) : Http3Stream :=
  if s.state = StreamState.IDLE then ⟨s.streamId, StreamState.OPEN, s.buffer⟩ else s

/-- `Stream.close`: idempotent transition to CLOSED; the buffer is untouched. -/
def streamClose (s : Http3Stream) : Http3Stream :=
  if s.state = StreamState.CLOSED then s else ⟨s.streamId, StreamState.CLOSED, s.buffer⟩

/-- `Stream.send_data`: legal only in the OPEN state. -/
def streamSendData (s : Http3Stream) (data : List Nat) : Except String Http3Stream :=
  if s.state ≠ StreamState.OPEN then
    .error "Stream is not open for sending data."
  else
    .ok ⟨s.streamId, s.state, s.buffer ++ data⟩

/-- `Stream.receive_data`: return the buffered bytes and clear the buffer.  The
method does not inspect `self.state` at all. -/
def streamReceiveData (s : Http3Stream) : List Nat × Http3Stream :=
  (s.buffer, ⟨s.streamId, s.state, []⟩)

/-- C10: `receive_data` never fails: in every stream state (IDLE, OPEN,
HALF_CLOSED and CLOSED alike) it is a total operation returning the current
buffer contents and leaving the buffer empty while preserving the state; in
particular data buffered before `close()` is still drained after it. -/
theorem stream_receive_data_total (s : Http3Stream) :
    (streamReceiveData s).1 = s.buffer
    ∧ (streamReceiveData s).2.buffer = []
    ∧ (streamReceiveData s).2.state = s.state
    ∧ (streamReceiveData (streamClose s)).1 = s.buffer
    ∧ (streamClose s).state = StreamState.CLOSED := by
  refine ⟨rfl, rfl, rfl, ?_, ?_⟩
  · simp only [streamClose, streamReceiveData]
    split
    · rfl
    · rfl
  · simp only [streamClose]
    split
    · rename_i h
      exact h
    · rfl

/-! ## QUIC manager receive path
(`src/quicpro/utils/quic/manager.py`, `QuicManager.receive_packet`)

The entire body is wrapped in `try/except Exception`, whose handler only logs;
the embedded function therefore always returns `.ok` (the Python method always
returns `None` normally).  `Header.decode` and the downstream stream delivery
live in modules absent from src and are abstracted as `handle`. -/

inductive RecvOutcome where
  | delivered (streamId : Nat) (frame : List Nat)
  | droppedLogged (msg : String)
deriving DecidableEq

/-- `QuicManager.receive_packet`.  `handle` abstracts the part of the `try`
body after `decode_quic_packet` (modelled from the spec: `Header.decode` is
imported from `quicpro.utils.quic.header.header`, which is absent from src):
it yields the stream id and the frame delivered, or the exception it raises. -/
def receivePacket (hash : List Nat → List Nat)
    (handle : List Nat → Except String (Nat × List Nat))
    (packet : List Nat) : Except String RecvOutcome :=
  .ok (match decode_quic_packet hash packet with
    | .error e => .droppedLogged e
    | .ok payload =>
      match handle payload with
      | .error e => .droppedLogged e
      | .ok sf => .delivered sf.1 sf.2)

/-- Concrete stand-ins for the abstract hash and header handler, used in the
closed statements below. -/
def zeroHash : List Nat → List Nat := fun _ => List.replicate 32 0

def noHandle : List Nat → Except String (Nat × List Nat) :=
  fun _ => .error "unreached"

/-- C8 counterexample: on the packet `[0]` — which fails QUIC decoding for want
of the header marker — `receive_packet` catches the exception, logs it and
returns normally; the call does not fail, so the caller is not notified. -/
theorem quic_manager_receive_counterexample :
    exceptOk (decode_quic_packet zeroHash [0]) = false
    ∧ receivePacket zeroHash noHandle [0]
        = Except.ok (RecvOutcome.droppedLogged
            "Packet does not start with the required header marker.")
    ∧ exceptOk (receivePacket zeroHash noHandle [0]) = true := by
  refine ⟨by decide, rfl, by decide⟩

/-- C8 amended: every input that fails QUIC packet decoding (missing marker,
too short, length mismatch or checksum mismatch) is dropped — no stream
delivery happens, the decode error is only logged — and `receive_packet`
returns normally rather than raising. -/
theorem quic_manager_receive_drops_silently (hash : List Nat → List Nat)
    (handle : List Nat → Except String (Nat × List Nat))
    (packet : List Nat) (e : String)
    (hdec : decode_quic_packet hash packet = Except.error e) :
    receivePacket hash handle packet
      = Except.ok (RecvOutcome.droppedLogged e) := by
  simp only [receivePacket, hdec]

theorem quic_manager_receive_drops_silently_witness :
    receivePacket zeroHash noHandle [0x51, 0x55, 0x49, 0x43]
      = Except.ok (RecvOutcome.droppedLogged
          "Packet too short to contain a valid header.") :=
  quic_manager_receive_drops_silently zeroHash noHandle
    [0x51, 0x55, 0x49, 0x43] _ rfl

end Quicpro
